import Mathlib

/-!
Verification of the finance-manager core (src/src/FinanceManager.jsx).

The development shallowly embeds the parts of the program the claims are
about:

* `JSNum` models JavaScript numbers as exact rationals extended with
  `nan`, `inf` and `ninf`; the arithmetic and comparison operators follow
  the JavaScript semantics for these special values (rounding of IEEE
  doubles is not modelled; all values occurring in the program's claims
  are small and exact).
* `jsNumber` models the fragment of the JavaScript `Number(string)`
  conversion exercised by the program: whitespace trimming, the empty
  string, signed `Infinity`, and signed decimal literals with an optional
  fraction part.  Other forms (exponents, hex literals) yield `nan`.
* `Json` models parsed JSON documents; `truthy`, `typeofIsObj` and
  `getField` model the JavaScript truthiness test, the `typeof x ===
  "object"` test and property access used by `loadData` and `importAll`.
* `Heap` models the JavaScript object graph with reference semantics:
  store objects, months objects and month-data objects live at addresses,
  and the mutation operations (`addItem`, `removeItem`, `updateItem`,
  `updateBudget`, `resetMonth`) are translated statement by statement
  from the component, including which objects they copy and which they
  mutate in place.
-/

/-- Exact addition of rationals, written through `mkRat` so that it
evaluates by kernel reduction; it agrees with `+` on `ℚ`
(`qadd_eq_add`). -/
def qadd (a b : ℚ) : ℚ :=
  mkRat (a.num * (b.den : ℤ) + b.num * (a.den : ℤ)) (a.den * b.den)

/-- JavaScript numbers: exact rationals plus `NaN` and the two
infinities. -/
inductive JSNum where
  | nan
  | inf
  | ninf
  | fin (q : ℚ)
deriving DecidableEq

/-- The JavaScript `isNaN` test on an already-converted number. -/
def JSNum.isNaN : JSNum → Bool
  | .nan => true
  | _ => false

/-- JavaScript `+` on numbers: `NaN` is absorbing, opposite infinities
give `NaN`, otherwise an infinity wins, and finite values add exactly. -/
def JSNum.add : JSNum → JSNum → JSNum
  | .nan, _ => .nan
  | _, .nan => .nan
  | .inf, .ninf => .nan
  | .ninf, .inf => .nan
  | .inf, _ => .inf
  | _, .inf => .inf
  | .ninf, _ => .ninf
  | _, .ninf => .ninf
  | .fin a, .fin b => .fin (qadd a b)

/-- JavaScript `<` on numbers: any comparison involving `NaN` is false. -/
def JSNum.lt : JSNum → JSNum → Bool
  | .nan, _ => false
  | _, .nan => false
  | .ninf, .ninf => false
  | .ninf, _ => true
  | _, .ninf => false
  | .inf, _ => false
  | .fin _, .inf => true
  | .fin a, .fin b => decide (a < b)

/-- JavaScript `<=` on numbers: any comparison involving `NaN` is
false. -/
def JSNum.le : JSNum → JSNum → Bool
  | .nan, _ => false
  | _, .nan => false
  | .ninf, _ => true
  | _, .ninf => false
  | .inf, .inf => true
  | .fin _, .inf => true
  | .inf, .fin _ => false
  | .fin a, .fin b => decide (a ≤ b)

/-- JavaScript `>`: `a > b` holds exactly when `b < a`. -/
def JSNum.gt (a b : JSNum) : Bool := JSNum.lt b a

/-- JavaScript `>=`: `a >= b` holds exactly when `b <= a`. -/
def JSNum.ge (a b : JSNum) : Bool := JSNum.le b a

/-- The `Number(x) || 0` coercion the component applies to stored
numbers: `NaN` (falsy) is replaced by `0`; `0` itself is falsy but is
replaced by the same value; every other number is kept. -/
def numOr0 : JSNum → JSNum
  | .nan => .fin 0
  | x => x

/-- Drop leading and trailing whitespace from a character list; models
the JavaScript `String.prototype.trim`. -/
def trimChars (cs : List Char) : List Char :=
  ((cs.dropWhile Char.isWhitespace).reverse.dropWhile Char.isWhitespace).reverse

/-- The JavaScript `String.prototype.trim` used by `addItem` on the item
name. -/
def jsTrim (s : String) : String := String.mk (trimChars s.toList)

/-- Numeric value of a digit list, most significant first. -/
def natOfDigits (cs : List Char) : ℕ :=
  cs.foldl (fun a c => a * 10 + (c.toNat - 48)) 0

/-- Split a leading sign character off a numeric literal. -/
def signSplit : List Char → Bool × List Char
  | '-' :: r => (true, r)
  | '+' :: r => (false, r)
  | r => (false, r)

/-- Value of an unsigned decimal literal with an optional single `.`
(`"12"`, `"12."`, `".5"`, `"12.5"`); `none` when the characters do not
form such a literal. -/
def decVal (cs : List Char) : Option ℚ :=
  let ip := cs.takeWhile (fun c => c ≠ '.')
  let rest := cs.dropWhile (fun c => c ≠ '.')
  match rest with
  | [] =>
    if cs ≠ [] ∧ cs.all Char.isDigit then some ((natOfDigits cs : ℕ) : ℚ)
    else none
  | _ :: fp =>
    if (ip ≠ [] ∨ fp ≠ []) ∧ ip.all Char.isDigit ∧ fp.all Char.isDigit then
      some (mkRat (natOfDigits ip * 10 ^ fp.length + natOfDigits fp) (10 ^ fp.length))
    else none

/-- The fragment of the JavaScript `Number(string)` conversion the
program relies on: trim whitespace; the empty string converts to `0`;
an optional sign followed by `Infinity` gives an infinity; an optional
sign followed by a decimal literal gives its exact value; anything else
(including exponent and hex forms, which the program never receives in
the claims under study) gives `NaN`. -/
def jsNumber (s : String) : JSNum :=
  let cs := trimChars s.toList
  if cs.isEmpty then JSNum.fin 0
  else
    let p := signSplit cs
    if p.2 = ("Infinity").toList then (if p.1 then JSNum.ninf else JSNum.inf)
    else
      match decVal p.2 with
      | some q => JSNum.fin (if p.1 then -q else q)
      | none => JSNum.nan

/-- An expense item as stored in a month (`Item` in the source). -/
structure Item where
  id : String
  name : String
  price : JSNum
  createdAt : String
deriving DecidableEq

/-- Per-month data (`MonthData` in the source). -/
structure MonthData where
  maxBudget : JSNum
  items : List Item
deriving DecidableEq

/-- The in-memory multi-month store (`Store` in the source), as a pure
value: month keys mapped to month data. -/
structure Store where
  months : List (String × MonthData)
deriving DecidableEq

/-- The cumulative-sum loop of `overBudgetMap` (source lines 125-134):
`running` is the mutable accumulator, and each item contributes the flag
`maxBudget > 0 && start < maxBudget && running > maxBudget ||
start >= maxBudget`. -/
def overBudgetGo (maxBudget : JSNum) : List Item → JSNum → List Bool
  | [], _ => []
  | it :: rest, running =>
    let price := numOr0 it.price
    let start := running
    let running2 := start.add price
    ((maxBudget.gt (JSNum.fin 0) && start.lt maxBudget && running2.gt maxBudget)
        || start.ge maxBudget)
      :: overBudgetGo maxBudget rest running2

/-- `overBudgetMap` from the source: one flag per item, computed with a
running cumulative sum starting at `0`. -/
def overBudgetMap (items : List Item) (maxBudget : JSNum) : List Bool :=
  overBudgetGo maxBudget items (JSNum.fin 0)

/-- Sum of the (coerced) prices of a list of items, accumulated left to
right as the component's loop does. -/
def sumPrices (items : List Item) : JSNum :=
  items.foldl (fun a it => a.add (numOr0 it.price)) (JSNum.fin 0)

/-- Modelled from the spec: the per-item flag of the overage-attribution
algorithm, phrased over `start` (sum of prior prices) and the item's
price, exactly as the specification states it. -/
def specFlag (maxBudget start price : JSNum) : Bool :=
  (maxBudget.gt (JSNum.fin 0) && start.lt maxBudget
      && (start.add price).gt maxBudget)
    || start.ge maxBudget

/-- Modelled from the spec: the overage-attribution flags, where each
item's `start` is the sum of the prices of the prior items. -/
def overBudgetSpec (maxBudget : JSNum) : List Item → List Item → List Bool
  | _, [] => []
  | prior, it :: rest =>
    specFlag maxBudget (sumPrices prior) (numOr0 it.price)
      :: overBudgetSpec maxBudget (prior ++ [it]) rest

/-- The flags the algorithm degenerates to when no positive ceiling is
set: each item is flagged exactly when its cumulative start has reached
the ceiling. -/
def lowFlags (maxBudget : JSNum) : List Item → List Item → List Bool
  | _, [] => []
  | prior, it :: rest =>
    (sumPrices prior).ge maxBudget :: lowFlags maxBudget (prior ++ [it]) rest

/-- `exceeding` from the source (line 122): `total > maxBudget &&
maxBudget > 0`. -/
def exceeding (total maxBudget : JSNum) : Bool :=
  total.gt maxBudget && maxBudget.gt (JSNum.fin 0)

/-- Parsed JSON values, as produced by `JSON.parse`. -/
inductive Json where
  | null
  | bool (b : Bool)
  | num (q : ℚ)
  | str (s : String)
  | arr (xs : List Json)
  | obj (fields : List (String × Json))

/-- JavaScript truthiness of a parsed JSON value: `null`, `false`, `0`
and the empty string are falsy; arrays and objects are always truthy. -/
def truthy : Json → Bool
  | .null => false
  | .bool b => b
  | .num q => decide (q ≠ 0)
  | .str s => s ≠ ""
  | .arr _ => true
  | .obj _ => true

/-- The `typeof x === "object"` test on a parsed JSON value: objects,
arrays and `null` all have type `"object"`. -/
def typeofIsObj : Json → Bool
  | .null => true
  | .arr _ => true
  | .obj _ => true
  | _ => false

/-- First-match association-list lookup with string keys; models
property lookup on a JavaScript object. -/
def alookup {α : Type} : List (String × α) → String → Option α
  | [], _ => none
  | p :: rest, k => if p.1 = k then some p.2 else alookup rest k

/-- Replace the value at a key, or append the binding if the key is
absent; models property assignment on a JavaScript object. -/
def aset {α : Type} : List (String × α) → String → α → List (String × α)
  | [], k, v => [(k, v)]
  | p :: rest, k, v => if p.1 = k then (k, v) :: rest else p :: aset rest k v

/-- Property access `x.f` on a parsed JSON value: defined on objects,
`undefined` (`none`) elsewhere. -/
def getField : Json → String → Option Json
  | .obj fields, k => alookup fields k
  | _, _ => none

/-- Truthiness of a possibly-`undefined` value. -/
def truthyOpt : Option Json → Bool
  | none => false
  | some j => truthy j

/-- The `typeof x === "object"` test on a possibly-`undefined` value
(`typeof undefined` is `"undefined"`). -/
def typeofIsObjOpt : Option Json → Bool
  | none => false
  | some j => typeofIsObj j

/-- The serialized store `{months: {}}` the program falls back to. -/
def emptyStoreJson : Json := Json.obj [("months", Json.obj [])]

/-- What `loadData` receives from the storage boundary: no value (or an
empty string, both falsy), a value `JSON.parse` throws on, or a parsed
value. -/
inductive LoadInput where
  | absent
  | unreadable
  | parsed (j : Json)

/-- `loadData` from the source (lines 17-29): fall back to the empty
store unless the parsed value is a truthy object whose `months` field is
a truthy object; the `JSON.parse` exception is caught inside the
function. -/
def loadData : LoadInput → Json
  | .absent => emptyStoreJson
  | .unreadable => emptyStoreJson
  | .parsed j =>
    if truthy j = false then emptyStoreJson
    else if typeofIsObj j = false then emptyStoreJson
    else if truthyOpt (getField j ("months")) = false then emptyStoreJson
    else if typeofIsObjOpt (getField j ("months")) = false then emptyStoreJson
    else j

/-- The condition under which `loadData` returns the parsed document
itself rather than the empty store. -/
def loadAccepts (j : Json) : Bool :=
  truthy j && typeofIsObj j && truthyOpt (getField j ("months"))
    && typeofIsObjOpt (getField j ("months"))

/-- The validation applied by `importAll` (source line 231): the parsed
document must be truthy, of type `"object"`, and have a truthy `months`
field (of any type). -/
def importCheck (j : Json) : Bool :=
  truthy j && typeofIsObj j && truthyOpt (getField j ("months"))

/-- `importAll` from the source (lines 224-241), at the level of the
parsed document: on a document passing `importCheck` the parsed value
wholesale becomes the new store (`setStore(parsed)`); otherwise the
error path is taken and the store is untouched. -/
def importAll (j : Json) : Option Json :=
  if importCheck j then some j else none

/-- `JSON.stringify` of a number: finite numbers serialize to JSON
numbers; `NaN` and the infinities serialize to `null`. -/
def encodeJSNum : JSNum → Json
  | .fin q => .num q
  | _ => .null

/-- The JSON shape of an item, with the field order in which `addItem`
creates it. -/
def encodeItem (it : Item) : Json :=
  .obj [("id", .str it.id), ("name", .str it.name),
        ("price", encodeJSNum it.price), ("createdAt", .str it.createdAt)]

/-- The JSON shape of a month's data. -/
def encodeMonth (md : MonthData) : Json :=
  .obj [("maxBudget", encodeJSNum md.maxBudget),
        ("items", .arr (md.items.map encodeItem))]

/-- The JSON document `exportAll` writes: the whole store, all months
(source lines 213-221; `JSON.stringify(store, null, 2)` at the level of
the parsed tree). -/
def storeToJson (s : Store) : Json :=
  .obj [("months", .obj (s.months.map (fun p => (p.1, encodeMonth p.2))))]

/-- `exportAll` from the source, at the level of the parsed tree. -/
def exportAll (s : Store) : Json := storeToJson s

/-- Read an item back from its JSON shape. -/
def decodeItem : Json → Option Item
  | .obj [("id", .str i), ("name", .str n), ("price", .num q), ("createdAt", .str c)] =>
    some ⟨i, n, JSNum.fin q, c⟩
  | _ => none

/-- Read a list of items back from their JSON shapes. -/
def decodeItems : List Json → Option (List Item)
  | [] => some []
  | j :: rest =>
    match decodeItem j, decodeItems rest with
    | some it, some l => some (it :: l)
    | _, _ => none

/-- Read a month's data back from its JSON shape. -/
def decodeMonth : Json → Option MonthData
  | .obj [("maxBudget", .num b), ("items", .arr xs)] =>
    (decodeItems xs).map (fun l => ⟨JSNum.fin b, l⟩)
  | _ => none

/-- Read the month map back from its JSON shape. -/
def decodeMonths : List (String × Json) → Option (List (String × MonthData))
  | [] => some []
  | p :: rest =>
    match decodeMonth p.2, decodeMonths rest with
    | some md, some l => some ((p.1, md) :: l)
    | _, _ => none

/-- Read a whole store back from the JSON document `exportAll` writes;
`some s` exactly when the document is deeply equal to the export of
`s`. -/
def jsonToStore : Json → Option Store
  | .obj [("months", .obj entries)] => (decodeMonths entries).map Store.mk
  | _ => none

/-- Finite and strictly positive price, name trimmed and non-empty: the
item invariant of the data model. -/
def Item.wfB (it : Item) : Bool :=
  (match it.price with
   | JSNum.fin q => decide (0 < q)
   | _ => false)
    && (jsTrim it.name == it.name) && (it.name != "")

/-- Finite non-negative ceiling, well-formed items, no duplicate item
ids: the month invariant of the data model. -/
def MonthData.wfB (md : MonthData) : Bool :=
  (match md.maxBudget with
   | JSNum.fin b => decide (0 ≤ b)
   | _ => false)
    && md.items.all Item.wfB && decide ((md.items.map Item.id).Nodup)

/-- Well-formed months under unique keys: the store invariant of the
data model. -/
def Store.wfB (s : Store) : Bool :=
  s.months.all (fun p => p.2.wfB) && decide ((s.months.map Prod.fst).Nodup)

/-- Heap addresses. -/
abbrev Addr := Nat

/-- First-match association-list lookup with address keys. -/
def alookupN {α : Type} : List (Addr × α) → Addr → Option α
  | [], _ => none
  | p :: rest, a => if p.1 = a then some p.2 else alookupN rest a

/-- Replace the value at an address, or append the binding if the
address is absent. -/
def asetN {α : Type} : List (Addr × α) → Addr → α → List (Addr × α)
  | [], a, v => [(a, v)]
  | p :: rest, a, v => if p.1 = a then (a, v) :: rest else p :: asetN rest a v

/-- The JavaScript object graph of the component's store state.  A store
object holds a reference to a months object; a months object maps month
keys to references to month-data objects; month-data objects hold the
budget and the item array (item arrays are never mutated in place by the
program, only replaced, so they are kept as values). `fresh` is the next
unused address. -/
structure Heap where
  storeObj : List (Addr × Addr)
  monthsObj : List (Addr × List (String × Addr))
  monthData : List (Addr × MonthData)
  fresh : Addr
deriving DecidableEq

/-- The month data a reader of the store rooted at `root` observes for
month `key`: follow the store object to its months object, look the key
up, and dereference the month-data object. -/
def monthValue (h : Heap) (root : Addr) (key : String) : Option MonthData :=
  match alookupN h.storeObj root with
  | none => none
  | some ma =>
    match alookupN h.monthsObj ma with
    | none => none
    | some mObj =>
      match alookup mObj key with
      | none => none
      | some ad => alookupN h.monthData ad

/-- `addItem` from the source (lines 140-164).  `none` models the early
returns: an empty trimmed name or a price that is `NaN` or `<= 0` (the
result `none` leaves the heap untouched, as the early `return` does).
On success the updater builds `{...prev, months: {...prev.months}}` — a
fresh store object and a fresh months object — and puts a fresh
month-data object with the appended item array under the active month;
no existing object is mutated.  `freshId` stands for
`crypto.randomUUID()` and `now` for `new Date().toISOString()`. -/
def addItem (h : Heap) (root : Addr) (activeMonth : String)
    (newName newPrice : String) (freshId now : String) : Option (Heap × Addr) :=
  if jsTrim newName = "" then none
  else
    let price := jsNumber newPrice
    if price.isNaN || price.le (JSNum.fin 0) then none
    else
      match alookupN h.storeObj root with
      | none => none
      | some ma =>
        match alookupN h.monthsObj ma with
        | none => none
        | some mObj =>
          match alookup mObj activeMonth with
          | none => none
          | some curA =>
            match alookupN h.monthData curA with
            | none => none
            | some cur =>
              let item : Item := ⟨freshId, jsTrim newName, price, now⟩
              some (⟨(h.fresh + 2, h.fresh + 1) :: h.storeObj,
                     (h.fresh + 1, aset mObj activeMonth h.fresh) :: h.monthsObj,
                     (h.fresh, ⟨cur.maxBudget, cur.items ++ [item]⟩) :: h.monthData,
                     h.fresh + 3⟩,
                    h.fresh + 2)

/-- `removeItem` from the source (lines 166-177), on the path where the
user confirms the prompt (the prompt is external UI).  Same copy
discipline as `addItem`, with the item array filtered by
`it.id !== id`. -/
def removeItem (h : Heap) (root : Addr) (activeMonth : String)
    (id : String) : Option (Heap × Addr) :=
  match alookupN h.storeObj root with
  | none => none
  | some ma =>
    match alookupN h.monthsObj ma with
    | none => none
    | some mObj =>
      match alookup mObj activeMonth with
      | none => none
      | some curA =>
        match alookupN h.monthData curA with
        | none => none
        | some cur =>
          some (⟨(h.fresh + 2, h.fresh + 1) :: h.storeObj,
                 (h.fresh + 1, aset mObj activeMonth h.fresh) :: h.monthsObj,
                 (h.fresh, ⟨cur.maxBudget, cur.items.filter (fun it => it.id ≠ id)⟩)
                   :: h.monthData,
                 h.fresh + 3⟩,
                h.fresh + 2)

/-- The `fields` object passed to `updateItem`: the properties the
spread `{...it, ...fields}` overrides. -/
structure ItemFields where
  name : Option String
  price : Option JSNum
deriving DecidableEq

/-- The spread `{...it, ...fields}`: present fields override, `id` and
`createdAt` are untouched. -/
def applyFields (it : Item) (f : ItemFields) : Item :=
  ⟨it.id, f.name.getD it.name, (f.price.getD it.price), it.createdAt⟩

/-- `updateItem` from the source (lines 179-191): same copy discipline
as `addItem`, with the matching item replaced by `{...it, ...fields}`. -/
def updateItem (h : Heap) (root : Addr) (activeMonth : String)
    (id : String) (fields : ItemFields) : Option (Heap × Addr) :=
  match alookupN h.storeObj root with
  | none => none
  | some ma =>
    match alookupN h.monthsObj ma with
    | none => none
    | some mObj =>
      match alookup mObj activeMonth with
      | none => none
      | some curA =>
        match alookupN h.monthData curA with
        | none => none
        | some cur =>
          some (⟨(h.fresh + 2, h.fresh + 1) :: h.storeObj,
                 (h.fresh + 1, aset mObj activeMonth h.fresh) :: h.monthsObj,
                 (h.fresh,
                  ⟨cur.maxBudget,
                   cur.items.map (fun it => if it.id = id then applyFields it fields else it)⟩)
                   :: h.monthData,
                 h.fresh + 3⟩,
                h.fresh + 2)

/-- `updateBudget` from the source (lines 193-201).  The updater only
shallow-copies the store object (`next = {...prev}`), so the new store
object shares the months object with the old one, and the assignment
`m.maxBudget = isNaN(n) ? 0 : n` mutates the month-data object in place
— the object the old store still references. -/
def updateBudget (h : Heap) (root : Addr) (activeMonth : String)
    (val : String) : Option (Heap × Addr) :=
  let n := jsNumber val
  match alookupN h.storeObj root with
  | none => none
  | some ma =>
    match alookupN h.monthsObj ma with
    | none => none
    | some mObj =>
      match alookup mObj activeMonth with
      | none => none
      | some mA =>
        match alookupN h.monthData mA with
        | none => none
        | some md =>
          some (⟨(h.fresh, ma) :: h.storeObj,
                 h.monthsObj,
                 asetN h.monthData mA
                   ⟨if n.isNaN then JSNum.fin 0 else n, md.items⟩,
                 h.fresh + 1⟩,
                h.fresh)

/-- `resetMonth` from the source (lines 203-210), on the path where the
user confirms the prompt.  The updater only shallow-copies the store
object, so the assignment `next.months[activeMonth] = {maxBudget: 0,
items: []}` mutates the months object shared with the old store. -/
def resetMonth (h : Heap) (root : Addr) (activeMonth : String) :
    Option (Heap × Addr) :=
  match alookupN h.storeObj root with
  | none => none
  | some ma =>
    match alookupN h.monthsObj ma with
    | none => none
    | some mObj =>
      some (⟨(h.fresh + 1, ma) :: h.storeObj,
             asetN h.monthsObj ma (aset mObj activeMonth h.fresh),
             (h.fresh, ⟨JSNum.fin 0, []⟩) :: h.monthData,
             h.fresh + 2⟩,
            h.fresh + 1)

/-- Heap sanity: every address stored anywhere in the heap is below
`fresh`, and within one months object distinct keys reference distinct
month-data objects (JavaScript object fields hold distinct freshly
allocated objects). -/
abbrev Heap.WF (h : Heap) : Prop :=
  (∀ p ∈ h.storeObj, p.1 < h.fresh ∧ p.2 < h.fresh)
    ∧ (∀ p ∈ h.monthsObj, p.1 < h.fresh ∧ ∀ q ∈ p.2, q.2 < h.fresh)
    ∧ (∀ p ∈ h.monthData, p.1 < h.fresh)
    ∧ (∀ p ∈ h.monthsObj, (p.2.map Prod.snd).Nodup)

/-- A one-month heap: a store object at `0`, its months object at `1`,
one month `2025-01` with budget `100` and no items at `2`. -/
def exHeap : Heap :=
  ⟨[(0, 1)], [(1, [("2025-01", 2)])], [(2, ⟨JSNum.fin 100, []⟩)], 3⟩

/-- A two-month heap used to instantiate the frame theorems. -/
def exHeap2 : Heap :=
  ⟨[(0, 1)], [(1, [("2025-01", 2), ("2025-02", 3)])],
   [(2, ⟨JSNum.fin 100, []⟩), (3, ⟨JSNum.fin 7, [⟨"w", "water", JSNum.fin 3, "t0"⟩]⟩)], 4⟩

/-- The item list of the specification's worked example: prices 50, 60,
40. -/
def exItems3 : List Item :=
  [⟨"a", "grocery", JSNum.fin 50, "t1"⟩,
   ⟨"b", "shoes", JSNum.fin 60, "t2"⟩,
   ⟨"c", "book", JSNum.fin 40, "t3"⟩]

/-- A small well-formed store used to instantiate the round-trip
theorem. -/
def exStore : Store :=
  ⟨[("2025-01", ⟨JSNum.fin 100, [⟨"a", "grocery", JSNum.fin 50, "t1"⟩]⟩)]⟩

/-- The heap and root produced by a concrete `updateBudget` call on the
two-month heap, used to instantiate the frame theorem. -/
def exUB : Heap × Addr :=
  (updateBudget exHeap2 0 ("2025-01") ("50")).getD (exHeap2, 0)

theorem qadd_eq_add (a b : ℚ) : qadd a b = a + b := by
  have ha : (a.den : ℚ) ≠ 0 := by exact_mod_cast a.den_nz
  have hb : (b.den : ℚ) ≠ 0 := by exact_mod_cast b.den_nz
  rw [qadd, Rat.mkRat_eq_div]
  push_cast
  conv_rhs => rw [← Rat.num_div_den a, ← Rat.num_div_den b]
  rw [div_add_div _ _ ha hb]
  ring_nf

theorem sumPrices_append (prior : List Item) (it : Item) :
    sumPrices (prior ++ [it]) = (sumPrices prior).add (numOr0 it.price) := by
  simp [sumPrices, List.foldl_append]

theorem overBudgetGo_eq (maxBudget : JSNum) (l : List Item) :
    ∀ prior : List Item,
      overBudgetGo maxBudget l (sumPrices prior) = overBudgetSpec maxBudget prior l := by
  induction l with
  | nil => intro prior; rfl
  | cons it rest ih =>
    intro prior
    have h2 := ih (prior ++ [it])
    rw [sumPrices_append] at h2
    simp only [overBudgetGo, overBudgetSpec, specFlag]
    rw [h2]

theorem gt_zero_false_of_le_zero (maxBudget : JSNum)
    (hle : maxBudget.le (JSNum.fin 0) = true) :
    maxBudget.gt (JSNum.fin 0) = false := by
  cases maxBudget with
  | nan => simp [JSNum.le] at hle
  | inf => simp [JSNum.le] at hle
  | ninf => rfl
  | fin b =>
    simp only [JSNum.le, decide_eq_true_eq] at hle
    simp only [JSNum.gt, JSNum.lt, decide_eq_false_iff_not, not_lt]
    exact hle

theorem overBudgetSpec_eq_lowFlags (maxBudget : JSNum)
    (hgt : maxBudget.gt (JSNum.fin 0) = false) (l : List Item) :
    ∀ prior : List Item,
      overBudgetSpec maxBudget prior l = lowFlags maxBudget prior l := by
  induction l with
  | nil => intro prior; rfl
  | cons it rest ih =>
    intro prior
    simp only [overBudgetSpec, lowFlags, specFlag, hgt, Bool.false_and, Bool.false_or]
    rw [ih (prior ++ [it])]

theorem foldl_add_nonneg (l : List Item) :
    ∀ a : ℚ, 0 ≤ a → (∀ it ∈ l, ∃ q, it.price = JSNum.fin q ∧ 0 ≤ q) →
      ∃ s, l.foldl (fun x it => x.add (numOr0 it.price)) (JSNum.fin a) = JSNum.fin s ∧ 0 ≤ s := by
  induction l with
  | nil => intro a ha _; exact ⟨a, rfl, ha⟩
  | cons it rest ih =>
    intro a ha h
    obtain ⟨q, hq, hq0⟩ := h it (List.mem_cons_self it rest)
    have hstep : (JSNum.fin a).add (numOr0 it.price) = JSNum.fin (qadd a q) := by
      rw [hq]; rfl
    rw [List.foldl_cons, hstep]
    have hq' : 0 ≤ qadd a q := by rw [qadd_eq_add]; exact add_nonneg ha hq0
    exact ih (qadd a q) hq' (fun x hx => h x (List.mem_cons_of_mem _ hx))

theorem sumPrices_nonneg (l : List Item)
    (h : ∀ it ∈ l, ∃ q, it.price = JSNum.fin q ∧ 0 ≤ q) :
    ∃ s, sumPrices l = JSNum.fin s ∧ 0 ≤ s :=
  foldl_add_nonneg l 0 le_rfl h

theorem fin_ge_true_of_le_zero (maxBudget : JSNum) (s : ℚ)
    (hle : maxBudget.le (JSNum.fin 0) = true) (hs : 0 ≤ s) :
    (JSNum.fin s).ge maxBudget = true := by
  cases maxBudget with
  | nan => simp [JSNum.le] at hle
  | inf => simp [JSNum.le] at hle
  | ninf => rfl
  | fin b =>
    simp only [JSNum.le, decide_eq_true_eq] at hle
    simp only [JSNum.ge, JSNum.le, decide_eq_true_eq]
    exact hle.trans hs

theorem lowFlags_all_true (maxBudget : JSNum)
    (hle : maxBudget.le (JSNum.fin 0) = true) (l : List Item) :
    ∀ prior : List Item,
      (∀ it ∈ prior, ∃ q, it.price = JSNum.fin q ∧ 0 ≤ q) →
      (∀ it ∈ l, ∃ q, it.price = JSNum.fin q ∧ 0 ≤ q) →
      ∀ b ∈ lowFlags maxBudget prior l, b = true := by
  induction l with
  | nil => intro prior _ _ b hb; simp [lowFlags] at hb
  | cons it rest ih =>
    intro prior hprior hl b hb
    simp only [lowFlags, List.mem_cons] at hb
    rcases hb with hb | hb
    · obtain ⟨s, hs, hs0⟩ := sumPrices_nonneg prior hprior
      rw [hb, hs]
      exact fin_ge_true_of_le_zero maxBudget s hle hs0
    · refine ih (prior ++ [it]) ?_ (fun x hx => hl x (List.mem_cons_of_mem _ hx)) b hb
      intro x hx
      rcases List.mem_append.mp hx with hx | hx
      · exact hprior x hx
      · rw [List.mem_singleton.mp hx]
        exact hl it (List.mem_cons_self it rest)

/-- C1 counterexample: the claim asserts that a non-positive
`maxBudget` makes every flag `false`, but with `maxBudget = 0` (which
satisfies `maxBudget <= 0`) a single item of price 50 is flagged `true`:
its cumulative start `0` satisfies the `start >= maxBudget` clause of
line 132. -/
theorem claim_C1_counterexample :
    (JSNum.fin 0).le (JSNum.fin 0) = true
      ∧ overBudgetMap [⟨"a", "grocery", JSNum.fin 50, "t1"⟩] (JSNum.fin 0) = [true] := by
  decide

/-- C1 amended: if `maxBudget <= 0` then the straddle clause is dead and
each item's flag equals `start >= maxBudget` (its cumulative start
reaching the ceiling); consequently, when every price is a non-negative
finite number, every flag is `true` — not `false`. -/
theorem claim_C1_amended (items : List Item) (maxBudget : JSNum)
    (hle : maxBudget.le (JSNum.fin 0) = true) :
    overBudgetMap items maxBudget = lowFlags maxBudget [] items
      ∧ ((∀ it ∈ items, ∃ q, it.price = JSNum.fin q ∧ 0 ≤ q) →
          ∀ b ∈ overBudgetMap items maxBudget, b = true) := by
  have hgt := gt_zero_false_of_le_zero maxBudget hle
  have heq : overBudgetMap items maxBudget = lowFlags maxBudget [] items := by
    have h1 := overBudgetGo_eq maxBudget items []
    have h2 := overBudgetSpec_eq_lowFlags maxBudget hgt items []
    exact h1.trans h2
  refine ⟨heq, fun hpos b hb => ?_⟩
  rw [heq] at hb
  exact lowFlags_all_true maxBudget hle items [] (by simp) hpos b hb

/-- C1 witness: for the single item of price 50 and `maxBudget = 0` the
amended claim applies and every flag is `true`. -/
theorem claim_C1_witness :
    overBudgetMap [⟨"a", "grocery", JSNum.fin 50, "t1"⟩] (JSNum.fin 0)
        = lowFlags (JSNum.fin 0) [] [⟨"a", "grocery", JSNum.fin 50, "t1"⟩]
      ∧ ∀ b ∈ overBudgetMap [⟨"a", "grocery", JSNum.fin 50, "t1"⟩] (JSNum.fin 0), b = true := by
  have h := claim_C1_amended [⟨"a", "grocery", JSNum.fin 50, "t1"⟩] (JSNum.fin 0) (by decide)
  refine ⟨h.1, h.2 ?_⟩
  intro it hit
  rw [List.mem_singleton.mp hit]
  exact ⟨50, rfl, by norm_num⟩

/-- C2: the `overBudgetMap` loop computes, for each item in input
order, exactly the specification's flag — `start` the sum of the prior
prices, `running = start + price`, flag `(maxBudget > 0 && start <
maxBudget && running > maxBudget) || start >= maxBudget` — and on the
worked example (prices 50, 60, 40 against ceiling 100) the flags are
`[false, true, true]`. -/
theorem claim_C2 :
    (∀ (items : List Item) (maxBudget : JSNum),
        overBudgetMap items maxBudget = overBudgetSpec maxBudget [] items)
      ∧ overBudgetMap exItems3 (JSNum.fin 100) = [false, true, true] := by
  constructor
  · intro items maxBudget
    exact overBudgetGo_eq maxBudget items []
  · decide

/-- C10: `exceeding` is `total > maxBudget && maxBudget > 0`; on finite
values that is exactly `maxBudget < total ∧ 0 < maxBudget`, a
non-positive ceiling yields `false` for every total, and the
specification's two examples evaluate as stated. -/
theorem claim_C10 :
    (∀ t b : ℚ, exceeding (JSNum.fin t) (JSNum.fin b) = true ↔ (b < t ∧ 0 < b))
      ∧ (∀ (total : JSNum) (b : ℚ), b ≤ 0 → exceeding total (JSNum.fin b) = false)
      ∧ exceeding (JSNum.fin 150) (JSNum.fin 100) = true
      ∧ exceeding (JSNum.fin 80) (JSNum.fin 0) = false := by
  refine ⟨?_, ?_, by decide, by decide⟩
  · intro t b
    simp [exceeding, JSNum.gt, JSNum.lt]
  · intro total b hb
    have hgt : (JSNum.fin b).gt (JSNum.fin 0) = false := by
      simp only [JSNum.gt, JSNum.lt, decide_eq_false_iff_not, not_lt]
      exact hb
    simp [exceeding, hgt]

/-- C10 witness: a negative ceiling yields `false` for a positive
total. -/
theorem claim_C10_witness : exceeding (JSNum.fin 5) (JSNum.fin (-2)) = false :=
  claim_C10.2.1 (JSNum.fin 5) (-2) (by norm_num)

/-- C7: `loadData` returns the empty store `{months:{}}` when the value
is absent, when parsing throws, and when the parsed value fails any of
the shape checks (falsy, not of type `"object"`, `months` falsy, or
`months` not of type `"object"` — which covers the persisted text
`{"months": "not-an-object"}`); and it is total: every outcome is the
empty store or the parsed document itself, never a raised fault. -/
theorem claim_C7 :
    loadData .absent = emptyStoreJson
      ∧ loadData .unreadable = emptyStoreJson
      ∧ (∀ j : Json,
          truthy j = false ∨ typeofIsObj j = false
            ∨ truthyOpt (getField j ("months")) = false
            ∨ typeofIsObjOpt (getField j ("months")) = false →
          loadData (.parsed j) = emptyStoreJson)
      ∧ loadData (.parsed (Json.obj [("months", Json.str ("not-an-object"))]))
          = emptyStoreJson
      ∧ (∀ j : Json, loadData (.parsed j) = emptyStoreJson ∨ loadData (.parsed j) = j) := by
  refine ⟨rfl, rfl, ?_, rfl, ?_⟩
  · intro j hj
    rcases hj with h | h | h | h <;> simp [loadData, h]
  · intro j
    by_cases h1 : truthy j = false
    · simp [loadData, h1]
    by_cases h2 : typeofIsObj j = false
    · simp [loadData, h2]
    by_cases h3 : truthyOpt (getField j ("months")) = false
    · simp [loadData, h3]
    by_cases h4 : typeofIsObjOpt (getField j ("months")) = false
    · simp [loadData, h4]
    right
    simp [loadData, h1, h2, h3, h4]

/-- C7 witness: a parsed number is truthy but not of type `"object"`,
so loading degrades to the empty store. -/
theorem claim_C7_witness : loadData (.parsed (Json.num 3)) = emptyStoreJson :=
  claim_C7.2.2.1 (Json.num 3) (Or.inr (Or.inl rfl))

/-- C8: every document `loadData` passes through is accepted by
`importAll` (so the import check is no stronger than the load check),
while the document `{"months": "x"}` is accepted by `importAll` and
installed wholesale, yet rejected by `loadData` into the empty store —
so import validation is strictly weaker and a successfully imported
store degrades to the empty store on the next startup. -/
theorem claim_C8 :
    (∀ j : Json, loadData (.parsed j) = j → importAll j = some j)
      ∧ importAll (Json.obj [("months", Json.str ("x"))])
          = some (Json.obj [("months", Json.str ("x"))])
      ∧ loadData (.parsed (Json.obj [("months", Json.str ("x"))])) = emptyStoreJson := by
  refine ⟨?_, rfl, rfl⟩
  intro j hj
  by_cases h1 : truthy j = false
  · rw [show loadData (.parsed j) = emptyStoreJson from by simp [loadData, h1]] at hj
    rw [← hj]
    rfl
  by_cases h2 : typeofIsObj j = false
  · rw [show loadData (.parsed j) = emptyStoreJson from by simp [loadData, h2]] at hj
    rw [← hj]
    rfl
  by_cases h3 : truthyOpt (getField j ("months")) = false
  · rw [show loadData (.parsed j) = emptyStoreJson from by simp [loadData, h3]] at hj
    rw [← hj]
    rfl
  have h1' : truthy j = true := by revert h1; cases truthy j <;> simp
  have h2' : typeofIsObj j = true := by revert h2; cases typeofIsObj j <;> simp
  have h3' : truthyOpt (getField j ("months")) = true := by
    revert h3; cases truthyOpt (getField j ("months")) <;> simp
  have hc : importCheck j = true := by
    simp only [importCheck, Bool.and_eq_true]
    exact ⟨⟨h1', h2'⟩, h3'⟩
  simp [importAll, hc]

/-- C8 witness: the empty store document survives loading and is
accepted by the import path. -/
theorem claim_C8_witness : importAll emptyStoreJson = some emptyStoreJson :=
  claim_C8.1 emptyStoreJson rfl

theorem decodeItem_encodeItem (it : Item) (q : ℚ) (hp : it.price = JSNum.fin q) :
    decodeItem (encodeItem it) = some it := by
  cases it with
  | mk i n p c =>
    simp only at hp
    subst hp
    rfl

theorem item_price_fin_of_wfB (it : Item) (h : Item.wfB it = true) :
    ∃ q, it.price = JSNum.fin q := by
  revert h
  cases hp : it.price <;> simp [Item.wfB, hp]

theorem decodeItems_map (l : List Item) (h : ∀ it ∈ l, Item.wfB it = true) :
    decodeItems (l.map encodeItem) = some l := by
  induction l with
  | nil => rfl
  | cons it rest ih =>
    obtain ⟨q, hq⟩ := item_price_fin_of_wfB it (h it (List.mem_cons_self it rest))
    have hrest := ih (fun x hx => h x (List.mem_cons_of_mem _ hx))
    simp [decodeItems, decodeItem_encodeItem it q hq, hrest]

theorem decodeMonth_encodeMonth (md : MonthData) (h : MonthData.wfB md = true) :
    decodeMonth (encodeMonth md) = some md := by
  simp only [MonthData.wfB, Bool.and_eq_true, decide_eq_true_eq, List.all_eq_true] at h
  obtain ⟨⟨hbm, hitems⟩, _⟩ := h
  obtain ⟨b, hb⟩ : ∃ b, md.maxBudget = JSNum.fin b := by
    revert hbm
    cases hm : md.maxBudget <;> simp [hm]
  cases md with
  | mk mb its =>
    simp only at hb
    subst hb
    simp [encodeMonth, encodeJSNum, decodeMonth,
      decodeItems_map its (by simpa using hitems)]

theorem decodeMonths_map (ms : List (String × MonthData))
    (h : ∀ p ∈ ms, MonthData.wfB p.2 = true) :
    decodeMonths (ms.map (fun p => (p.1, encodeMonth p.2))) = some ms := by
  induction ms with
  | nil => rfl
  | cons p rest ih =>
    have hp := decodeMonth_encodeMonth p.2 (h p (List.mem_cons_self p rest))
    have hrest := ih (fun x hx => h x (List.mem_cons_of_mem _ hx))
    simp [decodeMonths, hp, hrest]

/-- C5: for a well-formed store the exported document passes the import
check and is installed unchanged, and reading that document back as a
store yields a store deeply equal to the original. -/
theorem claim_C5 (s : Store) (hwf : Store.wfB s = true) :
    importAll (exportAll s) = some (exportAll s)
      ∧ jsonToStore (exportAll s) = some s := by
  constructor
  · rfl
  · have h : ∀ p ∈ s.months, MonthData.wfB p.2 = true := by
      simp only [Store.wfB, Bool.and_eq_true, List.all_eq_true] at hwf
      exact hwf.1
    cases s with
    | mk ms =>
      simp [exportAll, storeToJson, jsonToStore, decodeMonths_map ms (by simpa using h)]

/-- C5 witness: the round trip on a concrete one-month store. -/
theorem claim_C5_witness :
    importAll (exportAll exStore) = some (exportAll exStore)
      ∧ jsonToStore (exportAll exStore) = some exStore :=
  claim_C5 exStore (by decide)

theorem alookup_mem {α : Type} (l : List (String × α)) (k : String) (v : α)
    (h : alookup l k = some v) : (k, v) ∈ l := by
  induction l with
  | nil => simp [alookup] at h
  | cons p rest ih =>
    by_cases hp : p.1 = k
    · rw [alookup, if_pos hp] at h
      have hv : p.2 = v := Option.some.inj h
      have hpv : p = (k, v) := by
        obtain ⟨p1, p2⟩ := p
        simp only at hp hv
        rw [hp, hv]
      rw [← hpv]
      exact List.mem_cons_self p rest
    · rw [alookup, if_neg hp] at h
      exact List.mem_cons_of_mem _ (ih h)

theorem alookupN_mem {α : Type} (l : List (Addr × α)) (a : Addr) (v : α)
    (h : alookupN l a = some v) : (a, v) ∈ l := by
  induction l with
  | nil => simp [alookupN] at h
  | cons p rest ih =>
    by_cases hp : p.1 = a
    · rw [alookupN, if_pos hp] at h
      have hv : p.2 = v := Option.some.inj h
      have hpv : p = (a, v) := by
        obtain ⟨p1, p2⟩ := p
        simp only at hp hv
        rw [hp, hv]
      rw [← hpv]
      exact List.mem_cons_self p rest
    · rw [alookupN, if_neg hp] at h
      exact List.mem_cons_of_mem _ (ih h)

theorem alookup_aset_ne {α : Type} (l : List (String × α)) (k k' : String) (v : α)
    (hne : k' ≠ k) : alookup (aset l k v) k' = alookup l k' := by
  induction l with
  | nil => simp [aset, alookup, Ne.symm hne]
  | cons p rest ih =>
    by_cases hp : p.1 = k
    · rw [aset, if_pos hp, alookup, if_neg (fun h => hne h.symm), alookup, if_neg]
      rw [hp]
      exact fun h => hne h.symm
    · rw [aset, if_neg hp, alookup, alookup]
      by_cases hk' : p.1 = k'
      · rw [if_pos hk', if_pos hk']
      · rw [if_neg hk', if_neg hk', ih]

theorem alookup_aset_self {α : Type} (l : List (String × α)) (k : String) (v : α) :
    alookup (aset l k v) k = some v := by
  induction l with
  | nil => simp [aset, alookup]
  | cons p rest ih =>
    by_cases hp : p.1 = k
    · rw [aset, if_pos hp, alookup, if_pos rfl]
    · rw [aset, if_neg hp, alookup, if_neg hp]
      exact ih

theorem alookupN_asetN_ne {α : Type} (l : List (Addr × α)) (a b : Addr) (v : α)
    (hne : b ≠ a) : alookupN (asetN l a v) b = alookupN l b := by
  induction l with
  | nil => simp [asetN, alookupN, Ne.symm hne]
  | cons p rest ih =>
    by_cases hp : p.1 = a
    · rw [asetN, if_pos hp, alookupN, if_neg (fun h => hne h.symm), alookupN, if_neg]
      rw [hp]
      exact fun h => hne h.symm
    · rw [asetN, if_neg hp, alookupN, alookupN]
      by_cases hb : p.1 = b
      · rw [if_pos hb, if_pos hb]
      · rw [if_neg hb, if_neg hb, ih]

theorem alookupN_asetN_self {α : Type} (l : List (Addr × α)) (a : Addr) (v : α) :
    alookupN (asetN l a v) a = some v := by
  induction l with
  | nil => simp [asetN, alookupN]
  | cons p rest ih =>
    by_cases hp : p.1 = a
    · rw [asetN, if_pos hp, alookupN, if_pos rfl]
    · rw [asetN, if_neg hp, alookupN, if_neg hp]
      exact ih

theorem alookup_ne_of_nodup {α : Type} (l : List (String × α)) (k k' : String) (a b : α)
    (hnd : (l.map Prod.snd).Nodup) (hk : alookup l k = some a)
    (hk' : alookup l k' = some b) (hne : k' ≠ k) : b ≠ a := by
  induction l with
  | nil => simp [alookup] at hk
  | cons p rest ih =>
    simp only [List.map_cons, List.nodup_cons] at hnd
    by_cases h1 : p.1 = k
    · have ha : p.2 = a := by
        rw [alookup, if_pos h1] at hk
        exact Option.some.inj hk
      have h2 : ¬p.1 = k' := by
        rw [h1]
        exact fun hh => hne hh.symm
      rw [alookup, if_neg h2] at hk'
      have hb : b ∈ rest.map Prod.snd :=
        List.mem_map_of_mem Prod.snd (alookup_mem rest k' b hk')
      intro hba
      apply hnd.1
      rw [ha, ← hba]
      exact hb
    · by_cases h2 : p.1 = k'
      · have hb : p.2 = b := by
          rw [alookup, if_pos h2] at hk'
          exact Option.some.inj hk'
        rw [alookup, if_neg h1] at hk
        have ha : a ∈ rest.map Prod.snd :=
          List.mem_map_of_mem Prod.snd (alookup_mem rest k a hk)
        intro hba
        apply hnd.1
        rw [hb, hba]
        exact ha
      · rw [alookup, if_neg h1] at hk
        rw [alookup, if_neg h2] at hk'
        exact ih hnd.2 hk hk'

theorem monthValue_copy_new (h : Heap) (mObj : List (String × Addr))
    (k : String) (newMd : MonthData) :
    monthValue
      ⟨(h.fresh + 2, h.fresh + 1) :: h.storeObj,
       (h.fresh + 1, aset mObj k h.fresh) :: h.monthsObj,
       (h.fresh, newMd) :: h.monthData,
       h.fresh + 3⟩ (h.fresh + 2) k = some newMd := by
  have l1 : alookupN ((h.fresh + 2, h.fresh + 1) :: h.storeObj) (h.fresh + 2)
      = some (h.fresh + 1) := by
    rw [alookupN, if_pos rfl]
  have l2 : alookupN ((h.fresh + 1, aset mObj k h.fresh) :: h.monthsObj) (h.fresh + 1)
      = some (aset mObj k h.fresh) := by
    rw [alookupN, if_pos rfl]
  have l3 : alookup (aset mObj k h.fresh) k = some h.fresh :=
    alookup_aset_self mObj k h.fresh
  have l4 : alookupN ((h.fresh, newMd) :: h.monthData) h.fresh = some newMd := by
    rw [alookupN, if_pos rfl]
  simp only [monthValue, l1, l2, l3, l4]

theorem monthValue_copy_frame (h : Heap) (root ma : Addr) (mObj : List (String × Addr))
    (k k' : String) (newMd : MonthData) (hne : k' ≠ k) (hwf : h.WF)
    (hs : alookupN h.storeObj root = some ma)
    (hmo : alookupN h.monthsObj ma = some mObj) :
    monthValue
      ⟨(h.fresh + 2, h.fresh + 1) :: h.storeObj,
       (h.fresh + 1, aset mObj k h.fresh) :: h.monthsObj,
       (h.fresh, newMd) :: h.monthData,
       h.fresh + 3⟩ (h.fresh + 2) k' = monthValue h root k' := by
  have l1 : alookupN ((h.fresh + 2, h.fresh + 1) :: h.storeObj) (h.fresh + 2)
      = some (h.fresh + 1) := by
    rw [alookupN, if_pos rfl]
  have l2 : alookupN ((h.fresh + 1, aset mObj k h.fresh) :: h.monthsObj) (h.fresh + 1)
      = some (aset mObj k h.fresh) := by
    rw [alookupN, if_pos rfl]
  have l3 : alookup (aset mObj k h.fresh) k' = alookup mObj k' :=
    alookup_aset_ne mObj k k' h.fresh hne
  simp only [monthValue, l1, l2, l3, hs, hmo]
  cases had : alookup mObj k' with
  | none => rfl
  | some ad =>
    have hmem : (ma, mObj) ∈ h.monthsObj := alookupN_mem _ _ _ hmo
    have hlt : ad < h.fresh := (hwf.2.1 _ hmem).2 _ (alookup_mem _ _ _ had)
    show alookupN ((h.fresh, newMd) :: h.monthData) ad = alookupN h.monthData ad
    rw [alookupN, if_neg (ne_of_gt hlt)]

theorem monthValue_budget_frame (h : Heap) (root ma mA : Addr)
    (mObj : List (String × Addr)) (k k' : String) (newMd : MonthData)
    (hne : k' ≠ k) (hwf : h.WF)
    (hs : alookupN h.storeObj root = some ma)
    (hmo : alookupN h.monthsObj ma = some mObj)
    (hmA : alookup mObj k = some mA) :
    monthValue
      ⟨(h.fresh, ma) :: h.storeObj, h.monthsObj,
       asetN h.monthData mA newMd, h.fresh + 1⟩ h.fresh k'
      = monthValue h root k' := by
  have l1 : alookupN ((h.fresh, ma) :: h.storeObj) h.fresh = some ma := by
    rw [alookupN, if_pos rfl]
  simp only [monthValue, l1, hs, hmo]
  cases had : alookup mObj k' with
  | none => rfl
  | some ad =>
    have hmem : (ma, mObj) ∈ h.monthsObj := alookupN_mem _ _ _ hmo
    have hnodup := hwf.2.2.2 _ hmem
    have hadne : ad ≠ mA := alookup_ne_of_nodup mObj k k' mA ad hnodup hmA had hne
    show alookupN (asetN h.monthData mA newMd) ad = alookupN h.monthData ad
    exact alookupN_asetN_ne h.monthData mA ad newMd hadne

theorem monthValue_reset_frame (h : Heap) (root ma : Addr)
    (mObj : List (String × Addr)) (k k' : String) (hne : k' ≠ k) (hwf : h.WF)
    (hs : alookupN h.storeObj root = some ma)
    (hmo : alookupN h.monthsObj ma = some mObj) :
    monthValue
      ⟨(h.fresh + 1, ma) :: h.storeObj,
       asetN h.monthsObj ma (aset mObj k h.fresh),
       (h.fresh, ⟨JSNum.fin 0, []⟩) :: h.monthData, h.fresh + 2⟩ (h.fresh + 1) k'
      = monthValue h root k' := by
  have l1 : alookupN ((h.fresh + 1, ma) :: h.storeObj) (h.fresh + 1) = some ma := by
    rw [alookupN, if_pos rfl]
  have l2 : alookupN (asetN h.monthsObj ma (aset mObj k h.fresh)) ma
      = some (aset mObj k h.fresh) :=
    alookupN_asetN_self h.monthsObj ma (aset mObj k h.fresh)
  have l3 : alookup (aset mObj k h.fresh) k' = alookup mObj k' :=
    alookup_aset_ne mObj k k' h.fresh hne
  simp only [monthValue, l1, l2, l3, hs, hmo]
  cases had : alookup mObj k' with
  | none => rfl
  | some ad =>
    have hmem : (ma, mObj) ∈ h.monthsObj := alookupN_mem _ _ _ hmo
    have hlt : ad < h.fresh := (hwf.2.1 _ hmem).2 _ (alookup_mem _ _ _ had)
    show alookupN ((h.fresh, ⟨JSNum.fin 0, []⟩) :: h.monthData) ad
        = alookupN h.monthData ad
    rw [alookupN, if_neg (ne_of_gt hlt)]

/-- C3: the claim that no operation mutates a prior Store value is
violated by the code.  On a one-month heap, the month read through the
OLD store root changes after `updateBudget` (the shallow copy
`{...prev}` shares the month-data object, which `m.maxBudget = ...`
then mutates) and after `resetMonth` (the shared months object is
reassigned): the prior snapshot sees budget 50, respectively the wiped
month, instead of its original content. -/
theorem claim_C3_bug :
    monthValue exHeap 0 ("2025-01") = some ⟨JSNum.fin 100, []⟩
      ∧ (updateBudget exHeap 0 ("2025-01") ("50")).map
            (fun p => monthValue p.1 0 ("2025-01"))
          = some (some ⟨JSNum.fin 50, []⟩)
      ∧ (resetMonth exHeap 0 ("2025-01")).map
            (fun p => monthValue p.1 0 ("2025-01"))
          = some (some ⟨JSNum.fin 0, []⟩)
      ∧ (addItem exHeap 0 ("2025-01") ("x") ("5") ("id1") ("t1")).map
            (fun p => monthValue p.1 0 ("2025-01"))
          = some (some ⟨JSNum.fin 100, []⟩) := by
  refine ⟨by decide, by decide, by decide, by decide⟩

/-- C6 counterexample: the claim says `setBudget` never stores a
negative ceiling, but `updateBudget` with raw input `"-5"` stores the
ceiling `-5`, which is negative. -/
theorem claim_C6_counterexample :
    (updateBudget exHeap 0 ("2025-01") ("-5")).map
        (fun p => monthValue p.1 p.2 ("2025-01"))
        = some (some ⟨JSNum.fin (-5), []⟩)
      ∧ ((-5 : ℚ) < 0) := by
  exact ⟨by decide, by norm_num⟩

/-- C6 amended: `updateBudget` stores `0` when the raw value parses to
`NaN` and otherwise stores the parsed number unchanged — including
negative numbers, so the non-negativity invariant is not enforced.  The
items of the month are untouched. -/
theorem claim_C6_amended (h : Heap) (root : Addr) (key val : String) (md : MonthData)
    (hm : monthValue h root key = some md) :
    (updateBudget h root key val).map (fun p => monthValue p.1 p.2 key)
      = some (some ⟨if (jsNumber val).isNaN then JSNum.fin 0 else jsNumber val,
                    md.items⟩) := by
  rw [monthValue] at hm
  cases hs : alookupN h.storeObj root with
  | none =>
    simp only [hs] at hm
    exact Option.noConfusion hm
  | some ma =>
    simp only [hs] at hm
    cases hmo : alookupN h.monthsObj ma with
    | none =>
      simp only [hmo] at hm
      exact Option.noConfusion hm
    | some mObj =>
      simp only [hmo] at hm
      cases hmA : alookup mObj key with
      | none =>
        simp only [hmA] at hm
        exact Option.noConfusion hm
      | some mA =>
        simp only [hmA] at hm
        have hmd : alookupN h.monthData mA = some md := hm
        simp only [updateBudget, hs, hmo, hmA, hmd, Option.map_some']
        have l1 : alookupN ((h.fresh, ma) :: h.storeObj) h.fresh = some ma := by
          rw [alookupN, if_pos rfl]
        have l4 : alookupN
            (asetN h.monthData mA
              ⟨if (jsNumber val).isNaN then JSNum.fin 0 else jsNumber val, md.items⟩) mA
            = some ⟨if (jsNumber val).isNaN then JSNum.fin 0 else jsNumber val, md.items⟩ :=
          alookupN_asetN_self h.monthData mA _
        simp only [monthValue, l1, hmo, hmA, l4]

/-- C6 witness: on the one-month heap, setting the budget to `"7"`
stores exactly the parsed value `7`. -/
theorem claim_C6_witness :
    (updateBudget exHeap 0 ("2025-01") ("7")).map
        (fun p => monthValue p.1 p.2 ("2025-01"))
      = some (some ⟨if (jsNumber ("7")).isNaN then JSNum.fin 0 else jsNumber ("7"),
                    (⟨JSNum.fin 100, []⟩ : MonthData).items⟩) :=
  claim_C6_amended exHeap 0 ("2025-01") ("7") ⟨JSNum.fin 100, []⟩ (by decide)

/-- C4 counterexample: the claim says `rawPrice="Infinity"` fails
validation (not a finite number), but the code only checks `isNaN(price)
|| price <= 0`, so `Infinity` passes and an item with price `Infinity`
is appended. -/
theorem claim_C4_counterexample :
    (addItem exHeap 0 ("2025-01") ("x") ("Infinity") ("id1") ("t1")).map
        (fun p => monthValue p.1 p.2 ("2025-01"))
      = some (some ⟨JSNum.fin 100, [⟨"id1", "x", JSNum.inf, "t1"⟩]⟩) := by
  decide

/-- C4 amended: with the month present, `addItem` fails (returns
without touching the store) exactly when the trimmed name is empty or
the parsed price is `NaN` or `<= 0` — so `"-5"`, `"abc"` and an empty
name fail, but the non-finite `"Infinity"` is accepted; on success the
item with the trimmed name and parsed price is appended at the end of
the month's sequence, with all prior items and their order preserved. -/
theorem claim_C4_amended (h : Heap) (root : Addr) (key name raw fid now : String)
    (md : MonthData) (hm : monthValue h root key = some md) :
    (addItem h root key name raw fid now = none ↔
        (jsTrim name = "" ∨ (jsNumber raw).isNaN = true
          ∨ (jsNumber raw).le (JSNum.fin 0) = true))
      ∧ ((jsTrim name ≠ "" ∧ (jsNumber raw).isNaN = false
            ∧ (jsNumber raw).le (JSNum.fin 0) = false) →
          (addItem h root key name raw fid now).map (fun p => monthValue p.1 p.2 key)
            = some (some ⟨md.maxBudget,
                          md.items ++ [⟨fid, jsTrim name, jsNumber raw, now⟩]⟩)) := by
  rw [monthValue] at hm
  cases hs : alookupN h.storeObj root with
  | none =>
    simp only [hs] at hm
    exact Option.noConfusion hm
  | some ma =>
    simp only [hs] at hm
    cases hmo : alookupN h.monthsObj ma with
    | none =>
      simp only [hmo] at hm
      exact Option.noConfusion hm
    | some mObj =>
      simp only [hmo] at hm
      cases hmA : alookup mObj key with
      | none =>
        simp only [hmA] at hm
        exact Option.noConfusion hm
      | some mA =>
        simp only [hmA] at hm
        have hmd : alookupN h.monthData mA = some md := hm
        by_cases hn : jsTrim name = ""
        · refine ⟨?_, fun hc => absurd hn hc.1⟩
          constructor
          · intro _
            exact Or.inl hn
          · intro _
            simp only [addItem, if_pos hn]
        · by_cases hb : ((jsNumber raw).isNaN || (jsNumber raw).le (JSNum.fin 0)) = true
          · have hdisj : (jsNumber raw).isNaN = true
                ∨ (jsNumber raw).le (JSNum.fin 0) = true := by
              simpa [Bool.or_eq_true] using hb
            refine ⟨⟨fun _ => Or.inr hdisj, fun _ => ?_⟩, fun hc => ?_⟩
            · simp only [addItem, if_neg hn, if_pos hb]
            · rcases hdisj with hx | hx
              · rw [hc.2.1] at hx
                exact Bool.noConfusion hx
              · rw [hc.2.2] at hx
                exact Bool.noConfusion hx
          · have hb' : (jsNumber raw).isNaN = false
                ∧ (jsNumber raw).le (JSNum.fin 0) = false := by
              revert hb
              cases (jsNumber raw).isNaN <;> cases (jsNumber raw).le (JSNum.fin 0) <;> simp
            have hsome : addItem h root key name raw fid now
                = some (⟨(h.fresh + 2, h.fresh + 1) :: h.storeObj,
                         (h.fresh + 1, aset mObj key h.fresh) :: h.monthsObj,
                         (h.fresh, ⟨md.maxBudget,
                            md.items ++ [⟨fid, jsTrim name, jsNumber raw, now⟩]⟩)
                           :: h.monthData,
                         h.fresh + 3⟩,
                        h.fresh + 2) := by
              simp only [addItem, if_neg hn, if_neg hb, hs, hmo, hmA, hmd]
            constructor
            · constructor
              · intro hnone
                rw [hsome] at hnone
                exact Option.noConfusion hnone
              · intro hdisj
                rcases hdisj with hx | hx | hx
                · exact absurd hx hn
                · rw [hb'.1] at hx
                  exact Bool.noConfusion hx
                · rw [hb'.2] at hx
                  exact Bool.noConfusion hx
            · intro _
              rw [hsome]
              simp only [Option.map_some']
              exact congrArg some (monthValue_copy_new h mObj key _)

/-- C4 witness: on the one-month heap, adding item `"x"` at price `"5"`
succeeds and appends it; the month previously had no items. -/
theorem claim_C4_witness :
    (addItem exHeap 0 ("2025-01") ("x") ("5") ("id1") ("t1")).map
        (fun p => monthValue p.1 p.2 ("2025-01"))
      = some (some ⟨(⟨JSNum.fin 100, []⟩ : MonthData).maxBudget,
                    (⟨JSNum.fin 100, []⟩ : MonthData).items
                      ++ [⟨"id1", jsTrim ("x"), jsNumber ("5"), "t1"⟩]⟩) :=
  (claim_C4_amended exHeap 0 ("2025-01") ("x") ("5") ("id1") ("t1")
      ⟨JSNum.fin 100, []⟩ (by decide)).2 ⟨by decide, by decide, by decide⟩

/-- C9: on a sane heap, every mutation applied to the active month `k`
leaves the content observed for every other month `k'` through the NEW
store unchanged: `addItem` / `removeItem` / `updateItem` replace only
month `k`'s entry in a fresh months object, `updateBudget` mutates only
month `k`'s month-data object, and `resetMonth` reassigns only month
`k`'s entry. -/
theorem claim_C9 (h : Heap) (root : Addr) (k k' : String)
    (hne : k' ≠ k) (hwf : h.WF) :
    (∀ name raw fid now h2 r2,
        addItem h root k name raw fid now = some (h2, r2) →
        monthValue h2 r2 k' = monthValue h root k')
      ∧ (∀ id h2 r2,
          removeItem h root k id = some (h2, r2) →
          monthValue h2 r2 k' = monthValue h root k')
      ∧ (∀ id f h2 r2,
          updateItem h root k id f = some (h2, r2) →
          monthValue h2 r2 k' = monthValue h root k')
      ∧ (∀ val h2 r2,
          updateBudget h root k val = some (h2, r2) →
          monthValue h2 r2 k' = monthValue h root k')
      ∧ (∀ h2 r2,
          resetMonth h root k = some (h2, r2) →
          monthValue h2 r2 k' = monthValue h root k') := by
  refine ⟨?_, ?_, ?_, ?_, ?_⟩
  · intro name raw fid now h2 r2 hop
    by_cases hn : jsTrim name = ""
    · simp only [addItem, if_pos hn] at hop
      exact Option.noConfusion hop
    · by_cases hb : ((jsNumber raw).isNaN || (jsNumber raw).le (JSNum.fin 0)) = true
      · simp only [addItem, if_neg hn, if_pos hb] at hop
        exact Option.noConfusion hop
      · simp only [addItem, if_neg hn, if_neg hb] at hop
        cases hs : alookupN h.storeObj root with
        | none => simp only [hs] at hop; exact Option.noConfusion hop
        | some ma =>
          simp only [hs] at hop
          cases hmo : alookupN h.monthsObj ma with
          | none => simp only [hmo] at hop; exact Option.noConfusion hop
          | some mObj =>
            simp only [hmo] at hop
            cases hmA : alookup mObj k with
            | none => simp only [hmA] at hop; exact Option.noConfusion hop
            | some curA =>
              simp only [hmA] at hop
              cases hmd : alookupN h.monthData curA with
              | none => simp only [hmd] at hop; exact Option.noConfusion hop
              | some cur =>
                simp only [hmd, Option.some.injEq] at hop
                obtain ⟨hh, hr⟩ := Prod.mk.injEq .. ▸ hop
                subst hh
                subst hr
                exact monthValue_copy_frame h root ma mObj k k' _ hne hwf hs hmo
  · intro id h2 r2 hop
    cases hs : alookupN h.storeObj root with
    | none => simp only [removeItem, hs] at hop; exact Option.noConfusion hop
    | some ma =>
      simp only [removeItem, hs] at hop
      cases hmo : alookupN h.monthsObj ma with
      | none => simp only [hmo] at hop; exact Option.noConfusion hop
      | some mObj =>
        simp only [hmo] at hop
        cases hmA : alookup mObj k with
        | none => simp only [hmA] at hop; exact Option.noConfusion hop
        | some curA =>
          simp only [hmA] at hop
          cases hmd : alookupN h.monthData curA with
          | none => simp only [hmd] at hop; exact Option.noConfusion hop
          | some cur =>
            simp only [hmd, Option.some.injEq] at hop
            obtain ⟨hh, hr⟩ := Prod.mk.injEq .. ▸ hop
            subst hh
            subst hr
            exact monthValue_copy_frame h root ma mObj k k' _ hne hwf hs hmo
  · intro id f h2 r2 hop
    cases hs : alookupN h.storeObj root with
    | none => simp only [updateItem, hs] at hop; exact Option.noConfusion hop
    | some ma =>
      simp only [updateItem, hs] at hop
      cases hmo : alookupN h.monthsObj ma with
      | none => simp only [hmo] at hop; exact Option.noConfusion hop
      | some mObj =>
        simp only [hmo] at hop
        cases hmA : alookup mObj k with
        | none => simp only [hmA] at hop; exact Option.noConfusion hop
        | some curA =>
          simp only [hmA] at hop
          cases hmd : alookupN h.monthData curA with
          | none => simp only [hmd] at hop; exact Option.noConfusion hop
          | some cur =>
            simp only [hmd, Option.some.injEq] at hop
            obtain ⟨hh, hr⟩ := Prod.mk.injEq .. ▸ hop
            subst hh
            subst hr
            exact monthValue_copy_frame h root ma mObj k k' _ hne hwf hs hmo
  · intro val h2 r2 hop
    cases hs : alookupN h.storeObj root with
    | none => simp only [updateBudget, hs] at hop; exact Option.noConfusion hop
    | some ma =>
      simp only [updateBudget, hs] at hop
      cases hmo : alookupN h.monthsObj ma with
      | none => simp only [hmo] at hop; exact Option.noConfusion hop
      | some mObj =>
        simp only [hmo] at hop
        cases hmA : alookup mObj k with
        | none => simp only [hmA] at hop; exact Option.noConfusion hop
        | some mA =>
          simp only [hmA] at hop
          cases hmd : alookupN h.monthData mA with
          | none => simp only [hmd] at hop; exact Option.noConfusion hop
          | some md =>
            simp only [hmd, Option.some.injEq] at hop
            obtain ⟨hh, hr⟩ := Prod.mk.injEq .. ▸ hop
            subst hh
            subst hr
            exact monthValue_budget_frame h root ma mA mObj k k' _ hne hwf hs hmo hmA
  · intro h2 r2 hop
    cases hs : alookupN h.storeObj root with
    | none => simp only [resetMonth, hs] at hop; exact Option.noConfusion hop
    | some ma =>
      simp only [resetMonth, hs] at hop
      cases hmo : alookupN h.monthsObj ma with
      | none => simp only [hmo] at hop; exact Option.noConfusion hop
      | some mObj =>
        simp only [hmo, Option.some.injEq] at hop
        obtain ⟨hh, hr⟩ := Prod.mk.injEq .. ▸ hop
        subst hh
        subst hr
        exact monthValue_reset_frame h root ma mObj k k' hne hwf hs hmo

/-- C9 witness: on the two-month heap, setting the budget of `2025-01`
leaves the content of `2025-02` unchanged. -/
theorem claim_C9_witness :
    monthValue exUB.1 exUB.2 ("2025-02") = monthValue exHeap2 0 ("2025-02") :=
  (claim_C9 exHeap2 0 ("2025-01") ("2025-02") (by decide) (by decide)).2.2.2.1
    ("50") exUB.1 exUB.2 (by decide)
